import Mathlib

/-!
Verification development for the Tuft Studio image-processing pipeline
(`backend/app/processing/pipeline.py`).

Modelling conventions (shallow embedding):
* A label map / image plane is a flat `List Nat` of length `h * w`,
  row-major: pixel `(r, c)` lives at index `r * w + c`.  An RGB raster is a
  `List (Nat × Nat × Nat)` in the same order.
* Python / numpy floating point arithmetic is modelled over `ℚ`:
  `int(x)` is truncation toward zero (`pyTrunc`), Python `round(x, n)` is
  round-half-to-even on `n` decimal digits (`pyRound`).
* `np.ones((5,5))` dilation with 2 iterations is Chebyshev-radius-2 dilation
  applied twice (`dilate2`); out-of-bounds pixels count as background, which
  matches OpenCV's constant-border handling for dilation.
* `cv2.connectedComponentsWithStats(mask, connectivity=8)` is modelled by
  `comps`, which lists the 8-connected components of a mask in raster-scan
  order of their first pixel (the order OpenCV enumerates component ids in),
  each component as the sorted list of its flat pixel indices.
* External collaborators that the claims do not constrain (contour tracing,
  Douglas-Peucker simplification, PNG encoding, `cv2.resize` pixel content,
  per-pixel colour distances) are taken as explicit function parameters.
-/

namespace Tuft

/-- Python `int()` applied to a real quantity: truncation toward zero. -/
def pyTrunc (q : ℚ) : ℤ := if 0 ≤ q then ⌊q⌋ else ⌈q⌉

/-- Round-half-to-even on `ℚ`, the tie-breaking rule of Python `round`. -/
def rhe (q : ℚ) : ℤ :=
  let f := ⌊q⌋
  let r := q - (f : ℚ)
  if r < 1/2 then f
  else if 1/2 < r then f + 1
  else if f % 2 = 0 then f else f + 1

/-- Python `round(x, nd)` modelled on `ℚ`. -/
def pyRound (nd : Nat) (q : ℚ) : ℚ := (rhe (q * 10 ^ nd) : ℚ) / 10 ^ nd

/-- Lowercase hexadecimal digit character for `n % 16` (codepoint 48 + m for
digits, 87 + m for the letters a–f). -/
def hexDigit (n : Nat) : String :=
  String.mk [Char.ofNat (if n % 16 < 10 then 48 + n % 16 else 87 + n % 16)]

/-- Python `f"{n:02x}"` for `n < 256`: two lowercase hex digits. -/
def hex2 (n : Nat) : String := hexDigit (n / 16) ++ hexDigit n

/-- Read a label at a flat index (`0` out of bounds; all reads in the
pipeline are in bounds). -/
def mget (d : List Nat) (i : Nat) : Nat := d.getD i 0

/-- Read a mask bit at a flat index. -/
def bget (m : List Bool) (i : Nat) : Bool := m.getD i false

/-- In-bounds test for a (row, col) pair given as integers. -/
def inB (h w : Nat) (r c : ℤ) : Bool :=
  0 ≤ r && r < (h : ℤ) && 0 ≤ c && c < (w : ℤ)

/-- Offsets of the square Chebyshev neighbourhood of radius `r`
(`(2r+1) × (2r+1)` all-ones structuring element). -/
def chebOffsets (r : Nat) : List (ℤ × ℤ) :=
  (List.range (2 * r + 1)).flatMap fun a =>
    (List.range (2 * r + 1)).map fun b => ((a : ℤ) - r, (b : ℤ) - r)

/-- Binary dilation by an arbitrary structuring element given as a list of
offsets; pixels outside the image count as background (OpenCV's constant
border for dilation). -/
def dilateK (k : List (ℤ × ℤ)) (h w : Nat) (m : List Bool) : List Bool :=
  (List.range (h * w)).map fun i =>
    let r : ℤ := (i / w : Nat)
    let c : ℤ := (i % w : Nat)
    k.any fun od =>
      inB h w (r + od.1) (c + od.2) &&
        bget m ((r + od.1).toNat * w + (c + od.2).toNat)

/-- Binary erosion; pixels outside the image count as foreground (OpenCV's
constant border for erosion), so the border never erodes a pixel by itself. -/
def erodeK (k : List (ℤ × ℤ)) (h w : Nat) (m : List Bool) : List Bool :=
  (List.range (h * w)).map fun i =>
    let r : ℤ := (i / w : Nat)
    let c : ℤ := (i % w : Nat)
    k.all fun od =>
      !(inB h w (r + od.1) (c + od.2)) ||
        bget m ((r + od.1).toNat * w + (c + od.2).toNat)

/-- One `cv2.dilate(·, np.ones((5,5)), iterations=1)` step. -/
def dilate5 (h w : Nat) (m : List Bool) : List Bool := dilateK (chebOffsets 2) h w m

/-- Model of `cv2.dilate(·, np.ones((5,5)), iterations=2)`. -/
def dilate2 (h w : Nat) (m : List Bool) : List Bool := dilate5 h w (dilate5 h w m)

/-- The eight king-move offsets. -/
def off8 : List (ℤ × ℤ) :=
  [(-1,-1),(-1,0),(-1,1),(0,-1),(0,1),(1,-1),(1,0),(1,1)]

/-- One step of flood growth inside mask `m`: a pixel joins the set `s` if it
is in the mask and 8-adjacent to a pixel already in `s`. -/
def grow (h w : Nat) (m s : List Bool) : List Bool :=
  (List.range (h * w)).map fun j =>
    bget s j ||
      (bget m j &&
        (off8.any fun od =>
          let r : ℤ := (j / w : Nat)
          let c : ℤ := (j % w : Nat)
          inB h w (r + od.1) (c + od.2) &&
            bget s ((r + od.1).toNat * w + (c + od.2).toNat)))

/-- Characteristic mask of the 8-connected component of `start` inside `m`,
computed by saturating the one-step growth (`h*w` steps always saturate). -/
def flood (h w : Nat) (m : List Bool) (start : Nat) : List Bool :=
  (grow h w m)^[h * w] ((List.range (h * w)).map fun j => j == start)

/-- The 8-connected components of a mask, in raster-scan order of their first
pixel, each as the ascending list of its flat indices.  This models
`cv2.connectedComponentsWithStats(mask, connectivity=8)` (component ids
`1..n` in first-pixel raster order; `CC_STAT_AREA` is the list length). -/
def comps (h w : Nat) (m : List Bool) : List (List Nat) :=
  ((List.range (h * w)).foldl
    (fun (acc : List (List Nat) × List Bool) i =>
      if bget m i && !(bget acc.2 i) then
        let f := flood h w m i
        (acc.1 ++ [(List.range (h * w)).filter (fun j => bget f j)],
         (List.range (h * w)).map fun j => bget acc.2 j || bget f j)
      else acc)
    ([], List.replicate (h * w) false)).1

/-- Overwrite the pixels listed in `ids` with label `v` (numpy fancy-index
assignment `result[sel] = v`), described pixelwise. -/
def assign (ids : List Nat) (v : Nat) (d : List Nat) : List Nat :=
  (List.range d.length).map fun i => if ids.contains i then v else mget d i

/-- The index of the first maximal bin of `np.bincount l` — i.e.
`np.bincount(l).argmax()`: the least value (in `0 .. max l`) whose number of
occurrences in `l` is maximal. -/
def bincountArgmax (l : List Nat) : Nat :=
  (List.range (l.foldr max 0 + 1)).foldl
    (fun best v => if l.count best < l.count v then v else best) 0

/-- Least element of a nonempty list of naturals (`0` for the empty list). -/
def listMinD (l : List Nat) : Nat :=
  match l with
  | [] => 0
  | x :: xs => xs.foldl min x

/-- The dominant-neighbour rule as the specification words it: the most
frequent label of the list, ties broken by the smallest label value. -/
def leastMode (l : List Nat) : Nat :=
  let M := (l.map fun v => l.count v).foldr max 0
  listMinD (l.filter fun v => l.count v == M)

/-- The neighbour list a failing set of pixels samples: the ring obtained by
dilating the set with the 5×5 all-ones element for 2 iterations, minus the
set itself, read in the current label map, with the set's own colour
dropped. -/
def ringNb (h w : Nat) (d : List Nat) (sel : List Nat) (c : Nat) : List Nat :=
  let selMask := (List.range (h * w)).map fun i => sel.contains i
  let dil := dilate2 h w selMask
  let border := (List.range (h * w)).map fun i =>
    bget dil i && !(bget selMask i)
  (((List.range (h * w)).filter fun i => bget border i).map
    fun i => mget d i).filter fun x => !(x == c)

/-- Transcription of `cleanup_small_regions`, parameterised by the dominant-neighbour choice
function `dom` (applied only to nonempty neighbour lists).  Faithful
transcription: `min_area = max(int(total * threshold_ratio), 8)`; colours
`0 .. labels.max()` processed in order; for each colour the components of its
mask in the *current* map are computed once, then each component below
`min_area` samples the ring `dilate(comp, ones(5,5), iterations=2) - comp`
in the current map, drops its own colour, and (if any neighbour remains)
repaints the component with `dom` of the neighbour list. -/
def cleanupWith (dom : List Nat → Nat) (h w : Nat) (d : List Nat) (thr : ℚ) :
    List Nat :=
  let total := h * w
  let minArea := max (pyTrunc ((total : ℚ) * thr)).toNat 8
  let nColors := d.foldr max 0 + 1
  (List.range nColors).foldl
    (fun result colorId =>
      let mask := result.map fun x => x == colorId
      (comps h w mask).foldl
        (fun res comp =>
          if comp.length < minArea then
            let nb := ringNb h w res comp colorId
            if nb.isEmpty then res else assign comp (dom nb) res
          else res)
        result)
    d

/-- Source function `cleanup_small_regions(labels, threshold_ratio)` with the source's
dominant-neighbour rule `np.bincount(neighbor_labels).argmax()`. -/
def cleanup_small_regions (h w : Nat) (d : List Nat) (thr : ℚ) : List Nat :=
  cleanupWith bincountArgmax h w d thr

/-- The cleanup pass as §4.4 of the specification words it: identical
traversal, dominant neighbour chosen as the most frequent ring label with
ties broken by the smallest label index. -/
def cleanupSpec (h w : Nat) (d : List Nat) (thr : ℚ) : List Nat :=
  cleanupWith leastMode h w d thr

/-- Insertion (before the first element `y` with `le x y`) used by the
stable insertion sort `sortByB`. -/
def insertByB (le : α → α → Bool) (x : α) : List α → List α
  | [] => [x]
  | y :: ys => if le x y then x :: y :: ys else y :: insertByB le x ys

/-- Stable insertion sort: an element placed earlier in the input list ends
up before every later element it compares `le`-equal to. -/
def sortByB (le : α → α → Bool) (l : List α) : List α :=
  l.foldr (insertByB le) []

/-- Model of `np.sort` on a list of naturals (ascending). -/
def sortNat (l : List Nat) : List Nat := sortByB (fun a b => decide (a ≤ b)) l

/-- Model of `np.argsort(counts)`: an ascending sort of the index range by
count.  Numpy's default unstable introsort leaves the relative order of tied
counts unspecified, so this definition fixes one arbitrary determinization
(stable order); the development only relies on tie-agnostic consequences of
it — that the result is a permutation of the index range — never on the tie
order itself. -/
def argsortStable (counts : List Nat) : List Nat :=
  sortByB (fun i j => decide (counts.getD i 0 ≤ counts.getD j 0))
    (List.range counts.length)

/-- Lines 275–276 of the source: `np.argsort(yarn_counts)[::-1][:n_colors]`
followed by `np.sort` — the selected reference-table indices of constrained
quantization. -/
def selectTopYarn (counts : List Nat) (n : Nat) : List Nat :=
  sortNat (((argsortStable counts).reverse).take n)

/-- First index minimising `f` on `0 .. m-1` (`np.argmin`, ties to the first
occurrence).  Models both `dists.argmin(axis=1)` rows in the yarn quantizer
and `kmeans.predict` (nearest centre). -/
def argminQ (m : Nat) (f : Nat → ℚ) : Nat :=
  (List.range m).foldl (fun best j => if f j < f best then j else best) 0

/-- Per-pixel nearest-entry assignment over `m` palette entries with an
abstract distance table `dist pixel entry` (the LAB distances are computed
by the external colour-conversion collaborator). -/
def assignNearest (dist : Nat → Nat → ℚ) (npx m : Nat) : List Nat :=
  (List.range npx).map fun i => argminQ m (dist i)

/-- The fixed yarn reference table of `yarn_colors.py`:
`(name, R, G, B)` per entry, in source order. -/
def YARN_PALETTE : List (String × Nat × Nat × Nat) :=
  [("Snow White", 255, 255, 255), ("Ivory", 255, 248, 231),
   ("Cream", 245, 237, 215), ("Eggshell", 240, 234, 214),
   ("Silver", 192, 192, 192), ("Ash Gray", 160, 160, 160),
   ("Slate", 128, 128, 128), ("Charcoal", 64, 64, 64),
   ("Graphite", 40, 40, 40), ("Black", 15, 15, 15),
   ("Jet Black", 5, 5, 5), ("Sand", 210, 190, 155),
   ("Tan", 190, 165, 122), ("Camel", 175, 140, 90),
   ("Mocha", 130, 95, 65), ("Chocolate", 90, 60, 35),
   ("Espresso", 55, 35, 20), ("Walnut", 70, 45, 25),
   ("Blush", 230, 180, 175), ("Coral", 230, 120, 100),
   ("Tomato Red", 210, 60, 45), ("Crimson", 175, 30, 30),
   ("Burgundy", 115, 25, 35), ("Wine", 90, 20, 30),
   ("Peach", 245, 195, 155), ("Tangerine", 235, 140, 60),
   ("Burnt Orange", 200, 100, 35), ("Rust", 170, 75, 30),
   ("Terracotta", 190, 100, 65), ("Butter", 250, 235, 170),
   ("Lemon", 245, 220, 80), ("Mustard", 210, 175, 55),
   ("Gold", 195, 155, 45), ("Amber", 180, 130, 35),
   ("Mint", 175, 225, 185), ("Sage", 150, 175, 140),
   ("Olive", 110, 120, 60), ("Forest", 45, 80, 45),
   ("Hunter Green", 30, 65, 35), ("Emerald", 40, 120, 70),
   ("Teal", 50, 130, 130), ("Baby Blue", 170, 205, 235),
   ("Sky Blue", 120, 175, 220), ("Denim", 80, 120, 170),
   ("Royal Blue", 45, 70, 155), ("Navy", 25, 35, 80),
   ("Midnight", 20, 25, 55), ("Powder Blue", 160, 190, 210),
   ("Lavender", 185, 170, 210), ("Lilac", 170, 140, 190),
   ("Plum", 110, 50, 100), ("Eggplant", 65, 30, 65),
   ("Mauve", 175, 130, 155), ("Pale Pink", 245, 210, 210),
   ("Rose", 220, 140, 150), ("Hot Pink", 220, 70, 120),
   ("Magenta", 180, 45, 110), ("Dusty Rose", 195, 145, 145)]

/-- Table `YARN_PALETTE_RGB`: the RGB triples of the reference table. -/
def YARN_PALETTE_RGB : List (Nat × Nat × Nat) := YARN_PALETTE.map (·.2)

/-- Table `YARN_PALETTE_NAMES`: the names of the reference table. -/
def YARN_PALETTE_NAMES : List String := YARN_PALETTE.map (·.1)

/-- The palette construction of `quantize_to_yarn_palette` (lines 272–282)
given the per-reference-entry usage counts: selected RGB triples, in the
re-sorted ascending index order. -/
def yarnSelectedRgb (counts : List Nat) (n : Nat) : List (Nat × Nat × Nat) :=
  (selectTopYarn counts n).map fun j => YARN_PALETTE_RGB.getD j (0, 0, 0)

/-- The selected yarn colour names, aligned with `yarnSelectedRgb`. -/
def yarnSelectedNames (counts : List Nat) (n : Nat) : List String :=
  (selectTopYarn counts n).map fun j => YARN_PALETTE_NAMES.getD j ""

/-- Source function `refit_palette(original_rgb, labels, n_colors)`: entry `c` is the
per-channel mean over the original pixels whose final label is `c`, clipped
to `[0, 255]` and truncated to an integer (`astype(np.uint8)` on a
nonnegative float is a floor); labels with no pixels keep the zero
initialisation `(0,0,0)` of `np.zeros((n_colors, 3))`. -/
def refit_palette (orig : List (Nat × Nat × Nat)) (d : List Nat) (n : Nat) :
    List (Nat × Nat × Nat) :=
  (List.range n).map fun c =>
    let px := ((orig.zip d).filter fun p => p.2 == c).map (·.1)
    if px.isEmpty then (0, 0, 0)
    else
      let m := px.length
      let ch := fun (s : Nat) =>
        (pyTrunc (min (255 : ℚ) (max 0 ((s : ℚ) / (m : ℚ))))).toNat
      (ch (px.map (·.1)).sum, ch (px.map (·.2.1)).sum, ch (px.map (·.2.2)).sum)

/-- Step 9 of `process_image` (lines 82–84): the palette is refit only in
free mode; constrained (yarn) mode keeps the palette untouched. -/
def paletteAfterRefit (useYarnPalette : Bool) (orig : List (Nat × Nat × Nat))
    (d : List Nat) (palette_rgb : List (Nat × Nat × Nat)) :
    List (Nat × Nat × Nat) :=
  if useYarnPalette then palette_rgb
  else refit_palette orig d palette_rgb.length

/-- Width of the rug in millimetres (`cm × 10`, otherwise `in × 25.4`). -/
def rugWidthMm (rugW : ℚ) (unit : String) : ℚ :=
  if unit = "cm" then rugW * 10 else rugW * (127 / 5)

/-- The computed pixel radius of `enforce_min_thickness`:
`max(int(min_thickness_mm * (w / rug_width_mm) / 2), 1)`. -/
def minRadiusPx (w : Nat) (minT rugW : ℚ) (unit : String) : Nat :=
  max (pyTrunc (minT * ((w : ℚ) / rugWidthMm rugW unit) / 2)).toNat 1

/-- Disc of offsets of radius `r`, modelling
`cv2.getStructuringElement(cv2.MORPH_ELLIPSE, (2r+1, 2r+1))` (the claims
never depend on the exact rasterised ellipse shape). -/
def discOffsets (r : Nat) : List (ℤ × ℤ) :=
  (chebOffsets r).filter fun od => decide (od.1 ^ 2 + od.2 ^ 2 ≤ (r : ℤ) ^ 2)

/-- Source function `enforce_min_thickness(labels, n_colors, min_thickness_mm, rug_width,
rug_height, unit)`.  A no-op when the computed radius is `< 2`; otherwise
per colour: open (erode then dilate) the colour mask with the elliptical
kernel; pixels lost by the opening are reassigned to the dominant differing
label of the ring `dilate(lost, ones(5,5), iterations=2) & ~lost` (when one
exists).  `rug_height` is accepted and unused, as in the source. -/
def enforce_min_thickness (h w : Nat) (d : List Nat) (n : Nat)
    (minT rugW rugH : ℚ) (unit : String) : List Nat :=
  let minR := minRadiusPx w minT rugW unit
  if minR < 2 then d
  else
    let k := discOffsets minR
    (List.range n).foldl
      (fun result c =>
        let mask := result.map fun x => x == c
        if !(mask.any id) then result
        else
          let restored := dilateK k h w (erodeK k h w mask)
          let lost := (List.range (h * w)).map fun i =>
            bget mask i && !(bget restored i)
          if !(lost.any id) then result
          else
            let lostIdx := (List.range (h * w)).filter fun i => bget lost i
            let nb := ringNb h w result lostIdx c
            if nb.isEmpty then result
            else assign lostIdx (bincountArgmax nb) result)
      d

/-- Source function `smooth_edges_contour(labels, n_colors)` with the per-mask geometry
(contour extraction, Douglas-Peucker simplification and polygon
re-rasterisation, lines 444–473) abstracted as `canvasOf h w mask`.  Colours
are processed largest area first (Python's stable `sort` with
`reverse=True`), the canvas starts filled with the largest colour, and each
colour paints its simplified mask over the output. -/
def smooth_edges_contour (canvasOf : Nat → Nat → List Bool → List Bool)
    (h w : Nat) (d : List Nat) (n : Nat) : List Nat :=
  let pairs := (List.range n).map fun c => (c, d.count c)
  let sorted := sortByB (fun a b => decide (b.2 ≤ a.2)) pairs
  let start := List.replicate (h * w) (sorted.headD (0, 0)).1
  sorted.foldl
    (fun out p =>
      if p.2 == 0 then out
      else
        let mask := d.map fun x => x == p.1
        let canvas := canvasOf h w mask
        (List.range (h * w)).map fun i =>
          if bget canvas i then p.1 else out.getD i 0)
    start

/-- Palette record of `schemas.TuftColor`. -/
structure TuftColor where
  id : String
  rgb : Nat × Nat × Nat
  hex : String
  pixelCount : Nat
  name : String
deriving DecidableEq

/-- Per-colour layer record of `schemas.Layer` (the bitmap is the encoded
mask; encoding is a collaborator, abstracted). -/
structure Layer where
  colorId : String
  bitmap : String
deriving DecidableEq

/-- Yarn estimate record of `schemas.YarnEstimate`. -/
structure YarnEstimate where
  colorId : String
  area : ℚ
  estimatedYards : ℚ
  percentCoverage : ℚ
deriving DecidableEq

/-- The fixed density constant of `build_output`: 1.7 yards per square inch. -/
def TUFT_DENSITY : ℚ := 17 / 10

/-- Source function `build_output(quantized, palette_rgb, labels, request, color_names)`.
`idGen i` models the fresh random id `str(uuid.uuid4())[:8]` drawn at loop
iteration `i`; `enc` models PNG encoding of the per-colour mask.  All other
arithmetic is transcribed: rug area `(width/2.54)*(height/2.54)` for `cm`
else `width*height`; coverage `pixel_count / total` (0 when the image is
empty); `area = coverage * rug_area`; `yards = area * 1.7`; Python `round`
to 2, 1 and 1 decimals respectively. -/
def build_output (idGen : Nat → String) (enc : List Bool → String)
    (palette_rgb : List (Nat × Nat × Nat)) (d : List Nat) (h w : Nat)
    (width height : ℚ) (unit : String) (color_names : List String) :
    List TuftColor × List Layer × List YarnEstimate :=
  let total := h * w
  let rugArea : ℚ :=
    if unit = "cm" then (width / (127 / 50)) * (height / (127 / 50))
    else width * height
  let items := (List.range palette_rgb.length).map fun i =>
    let rgb := palette_rgb.getD i (0, 0, 0)
    let cid := idGen i
    let hexv := "#" ++ hex2 rgb.1 ++ hex2 rgb.2.1 ++ hex2 rgb.2.2
    let nm := if i < color_names.length then color_names.getD i "" else ""
    let cnt := d.count i
    let cov : ℚ := if 0 < total then (cnt : ℚ) / (total : ℚ) else 0
    let area := cov * rugArea
    let yards := area * TUFT_DENSITY
    (({ id := cid, rgb := rgb, hex := hexv, pixelCount := cnt,
        name := nm } : TuftColor),
     ({ colorId := cid, bitmap := enc (d.map fun x => x == i) } : Layer),
     ({ colorId := cid, area := pyRound 2 area,
        estimatedYards := pyRound 1 yards,
        percentCoverage := pyRound 1 (cov * 100) } : YarnEstimate))
  (items.map (·.1), items.map (·.2.1), items.map (·.2.2))

/-- SVG path data of one simplified polygon: move to the first vertex, line
to each subsequent vertex, close (`f"M{x},{y}"`, `f" L{x},{y}"`, `" Z"`). -/
def pathData (pts : List (Nat × Nat)) : String :=
  match pts with
  | [] => " Z"
  | p0 :: rest =>
    "M" ++ toString p0.1 ++ "," ++ toString p0.2 ++
      (rest.foldl (fun s p =>
        s ++ " L" ++ toString p.1 ++ "," ++ toString p.2) "") ++ " Z"

/-- The list of path-data strings `generate_outline_svg` accumulates:
for each colour whose mask is nonempty, every extracted contour with at
least 3 points whose simplification still has at least 3 points contributes
its closed path.  `contoursOf mask` models `cv2.findContours(mask,
RETR_CCOMP, CHAIN_APPROX_SIMPLE)` (the empty contour list also covers the
`hierarchy is None` guard); `simplify h w cnt` models the Douglas-Peucker
step `cv2.approxPolyDP(cnt, eps(cnt))` with its adaptive epsilon. -/
def outlinePaths (contoursOf : List Bool → List (List (Nat × Nat)))
    (simplify : Nat → Nat → List (Nat × Nat) → List (Nat × Nat))
    (h w : Nat) (d : List Nat) (n : Nat) : List String :=
  (List.range n).flatMap fun c =>
    let mask := d.map fun x => x == c
    if !(mask.any id) then []
    else
      let cnts := contoursOf mask
      if cnts.isEmpty then []
      else
        cnts.filterMap fun cnt =>
          if cnt.length < 3 then none
          else
            let approx := simplify h w cnt
            if approx.length < 3 then none else some (pathData approx)

/-- The SVG document template of lines 577–585, with `all_d` the
space-joined path data. -/
def svgDoc (w h : Nat) (all_d : String) : String :=
  "<svg xmlns=\"http://www.w3.org/2000/svg\" viewBox=\"0 0 " ++ toString w ++
    " " ++ toString h ++ "\" width=\"" ++ toString w ++ "\" height=\"" ++
    toString h ++ "\">" ++ "<path d=\"" ++ all_d ++ "\" " ++
    "fill=\"none\" stroke=\"#000000\" stroke-width=\"1.5\" " ++
    "stroke-linejoin=\"round\" stroke-linecap=\"round\"/>" ++ "</svg>"

/-- Source function `generate_outline_svg(labels, n_colors)`: empty string when no path was
collected, otherwise the SVG document over the joined paths. -/
def generate_outline_svg (contoursOf : List Bool → List (List (Nat × Nat)))
    (simplify : Nat → Nat → List (Nat × Nat) → List (Nat × Nat))
    (h w : Nat) (d : List Nat) (n : Nat) : String :=
  let paths := outlinePaths contoursOf simplify h w d n
  if paths.isEmpty then ""
  else svgDoc w h (String.intercalate " " paths)

/-- A decoded raster: `h × w` pixels of RGB triples. -/
structure Raster where
  h : Nat
  w : Nat
  data : List (Nat × Nat × Nat)
deriving DecidableEq

/-- Source function `limit_resolution(img, max_dim)`.  Unchanged when `max(h, w) <= max_dim`;
otherwise resized to `(int(w*scale), int(h*scale))` with
`scale = max_dim / max(h, w)` — `cv2.resize` returns an image of exactly the
requested size, with pixel content delegated to the interpolation
collaborator `content`. -/
def limit_resolution (content : Raster → Nat → Nat → List (Nat × Nat × Nat))
    (img : Raster) (maxDim : Nat) : Raster :=
  if max img.h img.w ≤ maxDim then img
  else
    let scale : ℚ := (maxDim : ℚ) / ((max img.h img.w : Nat) : ℚ)
    let w2 := (pyTrunc ((img.w : ℚ) * scale)).toNat
    let h2 := (pyTrunc ((img.h : ℚ) * scale)).toNat
    { h := h2, w := w2, data := content img w2 h2 }

/-- Every label of the map names one of the `n` palette entries. -/
def wfLabels (n : Nat) (d : List Nat) : Prop := ∀ x ∈ d, x < n

/-- A palette record without its randomly drawn id. -/
def stripTC (t : TuftColor) : (Nat × Nat × Nat) × String × Nat × String :=
  (t.rgb, t.hex, t.pixelCount, t.name)

/-- A yarn estimate without its randomly drawn id. -/
def stripYE (e : YarnEstimate) : ℚ × ℚ × ℚ :=
  (e.area, e.estimatedYards, e.percentCoverage)

/-- Physical rug area in square inches as claim C8 words it: `cm` dimensions
are converted to inches by dividing by 2.54. -/
def specRugArea (width height : ℚ) (unit : String) : ℚ :=
  if unit = "cm" then (width / 2.54) * (height / 2.54) else width * height

/-- Coverage fraction as claim C8 words it: the entry's pixel count divided
by the total pixel count. -/
def specCoverage (d : List Nat) (i total : Nat) : ℚ :=
  (d.count i : ℚ) / (total : ℚ)

/-- Concrete uniform 1×10 label map for the thickness no-op witness. -/
def g10 : List Nat := List.replicate 10 0

/-- Concrete 4×5 label map for the cleanup threshold analysis: an 8-pixel
component of label 0 surrounded by 12 pixels of label 1. -/
def g5 : List Nat :=
  [1, 1, 1, 1, 1,
   1, 0, 0, 0, 0,
   1, 0, 0, 0, 0,
   1, 1, 1, 1, 1]

/-- Concrete usage-count vector over the 58-entry reference table: entries 0
and 2 tie at 5 uses, entry 1 has 3, the rest are unused. -/
def countsTie : List Nat := [5, 3, 5] ++ List.replicate 55 0

/-- Concrete 1×2 original raster for the refit analysis. -/
def origCx : List (Nat × Nat × Nat) := [(0, 0, 0), (255, 0, 0)]

/-- Concrete label map carrying only label 0, leaving label 1 empty. -/
def dCx : List Nat := [0, 0]

/-- Concrete prior palette with a nonzero colour at the empty label 1. -/
def priorCx : List (Nat × Nat × Nat) := [(1, 2, 3), (9, 9, 9)]

/-- First uuid stream of the determinism analysis. -/
def idGenA : Nat → String := fun _ => "aaaaaaaa"

/-- Second uuid stream of the determinism analysis. -/
def idGenB : Nat → String := fun _ => "bbbbbbbb"

/-- Trivial encoder collaborator (both runs share it). -/
def encZero : List Bool → String := fun _ => ""

/-- Contour oracle returning one triangle, for the outline witness. -/
def contoursTriangle : List Bool → List (List (Nat × Nat)) :=
  fun _ => [[(0, 0), (3, 0), (0, 3)]]

/-- Identity simplification oracle (never adds vertices). -/
def simplifyId : Nat → Nat → List (Nat × Nat) → List (Nat × Nat) :=
  fun _ _ c => c

/-- Identity canvas oracle for the contour-smoothing invariant witness. -/
def canvasId : Nat → Nat → List Bool → List Bool := fun _ _ m => m

/-- Zero distance oracle for the quantization invariant witness. -/
def distZero : Nat → Nat → ℚ := fun _ _ => 0

/-- Content oracle for `cv2.resize` returning no pixels (the claims about
`limit_resolution` only concern dimensions). -/
def contentNil : Raster → Nat → Nat → List (Nat × Nat × Nat) := fun _ _ _ => []

/-- Concrete small raster within the resolution cap. -/
def imgSmall : Raster := ⟨2, 3, List.replicate 6 (0, 0, 0)⟩

/-- Concrete oversized raster (4000 × 1000). -/
def imgBig : Raster := ⟨4000, 1000, []⟩


theorem foldl_inv_mem {α β : Type} (P : β → Prop) (f : β → α → β)
    (l : List α) (s : β) (h0 : P s)
    (hf : ∀ b a, a ∈ l → P b → P (f b a)) : P (l.foldl f s) := by
  induction l generalizing s with
  | nil => exact h0
  | cons x xs ih =>
    exact ih (f s x) (hf s x (List.mem_cons_self x xs) h0)
      (fun b a ha hb => hf b a (List.mem_cons_of_mem x ha) hb)

theorem mget_mem_or_zero (d : List Nat) (i : Nat) :
    mget d i ∈ d ∨ mget d i = 0 := by
  unfold mget
  rcases Nat.lt_or_ge i d.length with h | h
  · left
    rw [List.getD_eq_getElem?_getD, List.getElem?_eq_getElem h]
    exact List.getElem_mem h
  · right
    rw [List.getD_eq_getElem?_getD, List.getElem?_eq_none h]
    rfl

theorem assign_length (ids : List Nat) (v : Nat) (d : List Nat) :
    (assign ids v d).length = d.length := by
  simp [assign]

theorem assign_mem (ids : List Nat) (v : Nat) (d : List Nat) :
    ∀ x ∈ assign ids v d, x = v ∨ x ∈ d ∨ x = 0 := by
  intro x hx
  unfold assign at hx
  rcases List.mem_map.1 hx with ⟨i, _, hi⟩
  by_cases hc : ids.contains i
  · left; rw [hc] at hi; simpa using hi.symm
  · right
    have : mget d i = x := by
      simp only [hc] at hi
      simpa using hi
    rcases mget_mem_or_zero d i with h | h
    · left; rwa [this] at h
    · right; rw [← this]; exact h

theorem le_foldr_max (l : List Nat) : ∀ x ∈ l, x ≤ l.foldr max 0 := by
  induction l with
  | nil => intro x hx; cases hx
  | cons y ys ih =>
    intro x hx
    rcases List.mem_cons.1 hx with rfl | hx
    · exact Nat.le_max_left _ _
    · exact le_trans (ih x hx) (Nat.le_max_right _ _)

theorem argmaxFold_spec (P : Nat → Nat) (n : Nat) :
    ((List.range n).foldl (fun best v => if P best < P v then v else best) 0
        = 0 ∨
      (List.range n).foldl (fun best v => if P best < P v then v else best) 0
        < n) ∧
    (∀ v < n, P v ≤
      P ((List.range n).foldl
          (fun best v => if P best < P v then v else best) 0)) ∧
    (∀ v < (List.range n).foldl
        (fun best v => if P best < P v then v else best) 0,
      P v <
        P ((List.range n).foldl
            (fun best v => if P best < P v then v else best) 0)) := by
  induction n with
  | zero => exact ⟨Or.inl rfl, fun v hv => absurd hv (Nat.not_lt_zero v),
      fun v hv => absurd hv (Nat.not_lt_zero v)⟩
  | succ n ih =>
    obtain ⟨hb, hmax, hleast⟩ := ih
    rw [List.range_succ, List.foldl_append]
    simp only [List.foldl_cons, List.foldl_nil]
    set r := (List.range n).foldl (fun best v => if P best < P v then v else best) 0 with hr
    by_cases h : P r < P n
    · rw [if_pos h]
      refine ⟨Or.inr (Nat.lt_succ_self n), ?_, ?_⟩
      · intro v hv
        rcases Nat.lt_succ_iff_lt_or_eq.1 hv with hv | rfl
        · exact le_trans (hmax v hv) (le_of_lt h)
        · exact le_refl _
      · intro v hv
        exact lt_of_le_of_lt (hmax v hv) h
    · rw [if_neg h]
      refine ⟨?_, ?_, hleast⟩
      · rcases hb with h0 | hlt
        · exact Or.inl h0
        · exact Or.inr (Nat.lt_succ_of_lt hlt)
      · intro v hv
        rcases Nat.lt_succ_iff_lt_or_eq.1 hv with hv | rfl
        · exact hmax v hv
        · exact Nat.le_of_not_lt h

theorem bincountArgmax_count_max (l : List Nat) :
    ∀ v ∈ l, l.count v ≤ l.count (bincountArgmax l) := by
  intro v hv
  have hb := (argmaxFold_spec (fun v => l.count v) (l.foldr max 0 + 1)).2.1
  exact hb v (Nat.lt_succ_of_le (le_foldr_max l v hv))

theorem bincountArgmax_least (l : List Nat) :
    ∀ v < bincountArgmax l, l.count v < l.count (bincountArgmax l) :=
  (argmaxFold_spec (fun v => l.count v) (l.foldr max 0 + 1)).2.2

theorem bincountArgmax_mem (l : List Nat) (hl : l ≠ []) :
    bincountArgmax l ∈ l := by
  match l, hl with
  | x :: xs, _ =>
    have h1 : 0 < (x :: xs).count x := List.count_pos_iff.2 (List.mem_cons_self x xs)
    have h2 := bincountArgmax_count_max (x :: xs) x (List.mem_cons_self x xs)
    exact List.count_pos_iff.1 (lt_of_lt_of_le h1 h2)

theorem listMinD_spec (l : List Nat) (hl : l ≠ []) :
    listMinD l ∈ l ∧ ∀ y ∈ l, listMinD l ≤ y := by
  match l, hl with
  | x :: xs, _ =>
    have key : ∀ (ys : List Nat) (a : Nat),
        (ys.foldl min a = a ∨ ys.foldl min a ∈ ys) ∧
          ys.foldl min a ≤ a ∧ ∀ y ∈ ys, ys.foldl min a ≤ y := by
      intro ys
      induction ys with
      | nil => exact fun a => ⟨Or.inl rfl, le_refl a, fun y hy => absurd hy (by simp)⟩
      | cons z zs ih =>
        intro a
        obtain ⟨hmem, hle, hall⟩ := ih (min a z)
        simp only [List.foldl_cons]
        refine ⟨?_, ?_, ?_⟩
        · rcases hmem with h | h
          · rcases Nat.le_total a z with hz | hz
            · left; rw [h, Nat.min_eq_left hz]
            · right; rw [h, Nat.min_eq_right hz]; exact List.mem_cons_self z zs
          · right; exact List.mem_cons_of_mem z h
        · exact le_trans hle (Nat.min_le_left a z)
        · intro y hy
          rcases List.mem_cons.1 hy with rfl | hy
          · exact le_trans hle (Nat.min_le_right a y)
          · exact hall y hy
    obtain ⟨hmem, hle, hall⟩ := key xs x
    have hD : listMinD (x :: xs) = xs.foldl min x := rfl
    rw [hD]
    refine ⟨?_, ?_⟩
    · rcases hmem with h | h
      · rw [h]; exact List.mem_cons_self x xs
      · exact List.mem_cons_of_mem x h
    · intro y hy
      rcases List.mem_cons.1 hy with rfl | hy
      · exact hle
      · exact hall y hy

theorem foldr_max_map_le (l : List Nat) (f : Nat → Nat) (B : Nat)
    (h : ∀ x ∈ l, f x ≤ B) : (l.map f).foldr max 0 ≤ B := by
  induction l with
  | nil => exact Nat.zero_le B
  | cons x xs ih =>
    simp only [List.map_cons, List.foldr_cons]
    exact Nat.max_le.2 ⟨h x (List.mem_cons_self x xs),
      ih fun y hy => h y (List.mem_cons_of_mem x hy)⟩

theorem count_le_foldr_max_map (l : List Nat) (v : Nat) (hv : v ∈ l) :
    l.count v ≤ (l.map fun u => l.count u).foldr max 0 :=
  le_foldr_max _ _ (List.mem_map.2 ⟨v, hv, rfl⟩)

/-- The source's bincount-argmax dominant neighbour equals the
specification's most-frequent-with-smallest-tie rule on nonempty lists. -/
theorem bincountArgmax_eq_leastMode (l : List Nat) (hl : l ≠ []) :
    bincountArgmax l = leastMode l := by
  have hrmem : bincountArgmax l ∈ l := bincountArgmax_mem l hl
  have hrM : l.count (bincountArgmax l) =
      (l.map fun v => l.count v).foldr max 0 := by
    refine le_antisymm (count_le_foldr_max_map l _ hrmem) ?_
    exact foldr_max_map_le l (fun v => l.count v) (l.count (bincountArgmax l))
      (fun x hx => bincountArgmax_count_max l x hx)
  have hrfil : bincountArgmax l ∈
      l.filter fun v => l.count v == (l.map fun u => l.count u).foldr max 0 := by
    refine List.mem_filter.2 ⟨hrmem, beq_iff_eq.2 hrM⟩
  have hne : (l.filter fun v =>
      l.count v == (l.map fun u => l.count u).foldr max 0) ≠ [] := by
    intro h
    rw [h] at hrfil
    cases hrfil
  obtain ⟨hmmem, hmall⟩ := listMinD_spec _ hne
  have hmle : listMinD (l.filter fun v =>
      l.count v == (l.map fun u => l.count u).foldr max 0) ≤ bincountArgmax l :=
    hmall _ hrfil
  rcases List.mem_filter.1 hmmem with ⟨hml, hmc⟩
  have hmM : l.count (listMinD (l.filter fun v =>
      l.count v == (l.map fun u => l.count u).foldr max 0)) =
      (l.map fun u => l.count u).foldr max 0 := beq_iff_eq.1 hmc
  have heq : bincountArgmax l = listMinD (l.filter fun v =>
      l.count v == (l.map fun u => l.count u).foldr max 0) := by
    rcases Nat.lt_or_ge (listMinD (l.filter fun v =>
        l.count v == (l.map fun u => l.count u).foldr max 0))
        (bincountArgmax l) with hlt | hge
    · exfalso
      have hx := bincountArgmax_least l _ hlt
      rw [hmM, hrM] at hx
      exact lt_irrefl _ hx
    · exact le_antisymm hge hmle
  exact heq

theorem insertByB_perm {α : Type} (le : α → α → Bool) (x : α) (s : List α) :
    (insertByB le x s).Perm (x :: s) := by
  induction s with
  | nil => exact List.Perm.refl _
  | cons y ys ih =>
    unfold insertByB
    by_cases h : le x y
    · rw [if_pos h]
    · rw [if_neg h]
      exact (ih.cons y).trans (List.Perm.swap x y ys)

theorem sortByB_perm {α : Type} (le : α → α → Bool) (l : List α) :
    (sortByB le l).Perm l := by
  induction l with
  | nil => exact List.Perm.refl _
  | cons x xs ih =>
    exact (insertByB_perm le x (sortByB le xs)).trans (ih.cons x)

theorem cleanupWith_congr (f g : List Nat → Nat)
    (hfg : ∀ l, l ≠ [] → f l = g l) (h w : Nat) (d : List Nat) (thr : ℚ) :
    cleanupWith f h w d thr = cleanupWith g h w d thr := by
  simp only [cleanupWith]
  apply List.foldl_ext
  intro result colorId _
  apply List.foldl_ext
  intro res comp _
  by_cases hA : comp.length <
      max (pyTrunc (((h * w : Nat) : ℚ) * thr)).toNat 8
  · rw [if_pos hA, if_pos hA]
    by_cases hE : (ringNb h w res comp colorId).isEmpty
    · rw [if_pos hE, if_pos hE]
    · rw [if_neg hE, if_neg hE,
        hfg _ (fun heq => hE (List.isEmpty_iff.mpr heq))]
  · rw [if_neg hA, if_neg hA]

theorem count_sum_length (n : Nat) (l : List Nat) (h : ∀ x ∈ l, x < n) :
    ∑ c ∈ Finset.range n, l.count c = l.length := by
  induction l with
  | nil => simp
  | cons x xs ih =>
    have hx : x < n := h x (List.mem_cons_self x xs)
    have ihx := ih fun y hy => h y (List.mem_cons_of_mem x hy)
    simp only [List.count_cons]
    rw [Finset.sum_add_distrib, ihx]
    have hstep : ∀ c ∈ Finset.range n,
        (if (x == c) = true then (1 : Nat) else 0) =
          if x = c then 1 else 0 := by
      intro c _
      simp [beq_iff_eq]
    rw [Finset.sum_congr rfl hstep, Finset.sum_ite_eq,
      if_pos (Finset.mem_range.2 hx)]
    simp

theorem argminQ_lt (m : Nat) (f : Nat → ℚ) (hm : 0 < m) : argminQ m f < m := by
  have key : ∀ k : Nat,
      (List.range k).foldl (fun best j => if f j < f best then j else best) 0
          = 0 ∨
        (List.range k).foldl (fun best j => if f j < f best then j else best) 0
          < k := by
    intro k
    induction k with
    | zero => exact Or.inl rfl
    | succ k ih =>
      rw [List.range_succ, List.foldl_append]
      simp only [List.foldl_cons, List.foldl_nil]
      by_cases hc : f k <
          f ((List.range k).foldl (fun best j => if f j < f best then j else best) 0)
      · rw [if_pos hc]
        exact Or.inr (Nat.lt_succ_self k)
      · rw [if_neg hc]
        rcases ih with h0 | hlt
        · exact Or.inl h0
        · exact Or.inr (Nat.lt_succ_of_lt hlt)
  unfold argminQ
  rcases key m with h0 | hlt
  · rw [h0]; exact hm
  · exact hlt

theorem sortByB_headD_mem {α : Type} (le : α → α → Bool) (l : List α)
    (dflt : α) (hl : l ≠ []) : (sortByB le l).headD dflt ∈ l := by
  have hlen : (sortByB le l).length = l.length := (sortByB_perm le l).length_eq
  have hne : sortByB le l ≠ [] := by
    intro hs
    rw [hs] at hlen
    exact hl (List.length_eq_zero.1 hlen.symm)
  refine (sortByB_perm le l).mem_iff.1 ?_
  match hs : sortByB le l, hne with
  | x :: xs, _ =>
    rw [List.headD_cons]
    exact List.mem_cons_self x xs

theorem getD_map_range {α : Type} (f : Nat → α) (n c : Nat) (dflt : α)
    (hc : c < n) : (((List.range n).map f).getD c dflt) = f c := by
  rw [List.getD_eq_getElem?_getD, List.getElem?_map, List.getElem?_range hc]
  rfl

theorem pyTrunc_of_nonneg (q : ℚ) (h : 0 ≤ q) : pyTrunc q = ⌊q⌋ := if_pos h

theorem ringNb_sub (h w : Nat) (d : List Nat) (sel : List Nat) (c : Nat) :
    ∀ x ∈ ringNb h w d sel c, x ∈ d ∨ x = 0 := by
  intro x hx
  unfold ringNb at hx
  rcases List.mem_map.1 (List.mem_of_mem_filter hx) with ⟨i, _, hi⟩
  rcases mget_mem_or_zero d i with hmem | hz
  · exact Or.inl (hi ▸ hmem)
  · exact Or.inr (hi ▸ hz)

theorem svgDoc_ne_empty (w h : Nat) (s : String) : svgDoc w h s ≠ "" := by
  intro hcon
  have hlen : (svgDoc w h s).length = 0 := by rw [hcon]; rfl
  unfold svgDoc at hlen
  rw [String.length_append] at hlen
  have h6 : ("</svg>" : String).length = 6 := rfl
  omega

theorem selectTopYarn_mem_lt (counts : List Nat) (n : Nat) :
    ∀ j ∈ selectTopYarn counts n, j < counts.length := by
  intro j hj
  unfold selectTopYarn sortNat at hj
  have h1 := (sortByB_perm _ _).mem_iff.1 hj
  have h2 := List.mem_of_mem_take h1
  have h3 := List.mem_reverse.1 h2
  unfold argsortStable at h3
  have h4 := (sortByB_perm _ _).mem_iff.1 h3
  exact List.mem_range.1 h4

/-- C5 (corrected, amended part): one cleanup pass behaves exactly as the
specification's per-component description with the threshold
`max(int(total_pixels * regionThreshold), 8)` — the product is truncated to
an integer before the comparison — and the dominant neighbour taken as the
most frequent differing ring label with ties broken by the smallest label
index (`np.bincount(...).argmax()`), isolated components being left
unchanged. -/
theorem cleanup_pass_refines_spec (h w : Nat) (d : List Nat) (thr : ℚ) :
    cleanup_small_regions h w d thr = cleanupSpec h w d thr :=
  cleanupWith_congr bincountArgmax leastMode
    (fun l hl => bincountArgmax_eq_leastMode l hl) h w d thr

/-- C5 counterexample: on a 4×5 map whose label-0 component has area 8, with
`regionThreshold = 17/40` (so `total_pixels * regionThreshold = 8.5`), the
claim's untruncated threshold `max(8.5, 8)` calls the component failing and
predicts its reassignment to the dominant ring label 1, but the code's
threshold is `max(int(8.5), 8) = 8` and the pass leaves the map unchanged. -/
theorem cleanup_threshold_counterexample :
    ((8 : ℚ) < max (((4 * 5 : Nat) : ℚ) * (17 / 40)) 8) ∧
      comps 4 5 (g5.map fun x => x == 0) = [[6, 7, 8, 9, 11, 12, 13, 14]] ∧
      leastMode (ringNb 4 5 g5 [6, 7, 8, 9, 11, 12, 13, 14] 0) = 1 ∧
      ringNb 4 5 g5 [6, 7, 8, 9, 11, 12, 13, 14] 0 ≠ [] ∧
      cleanup_small_regions 4 5 g5 (17 / 40) = g5 ∧
      mget g5 6 = 0 := by
  refine ⟨?_, ?_, ?_, ?_, ?_, ?_⟩ <;> with_unfolding_all decide

/-- C6: thickness enforcement converts the requested minimum thickness from
millimetres to a pixel radius via the image width divided by the physical
width converted to millimetres (`cm × 10`, `in × 25.4`), and whenever the
computed radius is below 2 the stage returns the label map unchanged. -/
theorem thickness_noop_below_radius_two (h w : Nat) (d : List Nat) (n : Nat)
    (minT rugW rugH : ℚ) (unit : String) :
    rugWidthMm rugW "cm" = rugW * 10 ∧
      rugWidthMm rugW "in" = rugW * (127 / 5) ∧
      minRadiusPx w minT rugW unit =
        max (pyTrunc (minT * ((w : ℚ) / rugWidthMm rugW unit) / 2)).toNat 1 ∧
      (minRadiusPx w minT rugW unit < 2 →
        enforce_min_thickness h w d n minT rugW rugH unit = d) := by
  refine ⟨by simp [rugWidthMm], by simp [rugWidthMm], rfl, ?_⟩
  intro hlt
  simp only [enforce_min_thickness]
  rw [if_pos hlt]

/-- Witness for C6 at a concrete request: 10 px wide image, 100 in wide rug,
5 mm minimum thickness gives radius 1 < 2, and the stage is the identity. -/
theorem thickness_noop_witness :
    minRadiusPx 10 5 100 "in" < 2 ∧
      enforce_min_thickness 1 10 g10 1 5 100 50 "in" = g10 :=
  ⟨by with_unfolding_all decide,
   (thickness_noop_below_radius_two 1 10 g10 1 5 100 50 "in").2.2.2
     (by with_unfolding_all decide)⟩

/-- C10: `limit_resolution` with the cap 2000 is the identity when the
larger dimension is within the cap, otherwise produces a raster that is no
larger in either dimension and whose larger dimension is at most 2000; in
all cases the result satisfies `max(h, w) ≤ 2000`. -/
theorem limit_resolution_cap
    (content : Raster → Nat → Nat → List (Nat × Nat × Nat)) (img : Raster) :
    (max img.h img.w ≤ 2000 → limit_resolution content img 2000 = img) ∧
      (2000 < max img.h img.w →
        (limit_resolution content img 2000).h ≤ 2000 ∧
          (limit_resolution content img 2000).w ≤ 2000 ∧
          (limit_resolution content img 2000).h ≤ img.h ∧
          (limit_resolution content img 2000).w ≤ img.w) ∧
      max (limit_resolution content img 2000).h
          (limit_resolution content img 2000).w ≤ 2000 := by
  by_cases hc : max img.h img.w ≤ 2000
  · have hid : limit_resolution content img 2000 = img := by
      unfold limit_resolution
      rw [if_pos hc]
    refine ⟨fun _ => hid, fun hgt => absurd hc (not_le.2 hgt), ?_⟩
    rw [hid]
    exact hc
  · have hgt : 2000 < max img.h img.w := not_le.1 hc
    have hm0 : (0 : ℚ) < ((max img.h img.w : Nat) : ℚ) := by
      exact_mod_cast Nat.lt_of_lt_of_le (by norm_num) (le_of_lt hgt)
    have hdim : ∀ x : Nat, x ≤ max img.h img.w →
        (pyTrunc ((x : ℚ) *
            (((2000 : Nat) : ℚ) / ((max img.h img.w : Nat) : ℚ)))).toNat ≤ 2000 ∧
          (pyTrunc ((x : ℚ) *
            (((2000 : Nat) : ℚ) / ((max img.h img.w : Nat) : ℚ)))).toNat ≤ x := by
      intro x hx
      have hq0 : (0 : ℚ) ≤ (x : ℚ) *
          (((2000 : Nat) : ℚ) / ((max img.h img.w : Nat) : ℚ)) := by positivity
      rw [pyTrunc_of_nonneg _ hq0]
      constructor
      · rw [Int.toNat_le]
        have hb : (x : ℚ) * (((2000 : Nat) : ℚ) / ((max img.h img.w : Nat) : ℚ))
            ≤ ((2000 : Nat) : ℚ) := by
          calc (x : ℚ) * (((2000 : Nat) : ℚ) / ((max img.h img.w : Nat) : ℚ))
              ≤ ((max img.h img.w : Nat) : ℚ) *
                (((2000 : Nat) : ℚ) / ((max img.h img.w : Nat) : ℚ)) := by
                refine mul_le_mul_of_nonneg_right ?_ (by positivity)
                exact_mod_cast hx
            _ = ((2000 : Nat) : ℚ) := by
                rw [mul_comm, div_mul_cancel₀]
                exact ne_of_gt hm0
        have hf := Int.floor_le_floor hb
        rwa [Int.floor_natCast] at hf
      · rw [Int.toNat_le]
        have hb : (x : ℚ) * (((2000 : Nat) : ℚ) / ((max img.h img.w : Nat) : ℚ))
            ≤ (x : ℚ) := by
          refine mul_le_of_le_one_right (by positivity) ?_
          rw [div_le_one hm0]
          exact_mod_cast le_of_lt hgt
        have hf := Int.floor_le_floor hb
        rwa [Int.floor_natCast] at hf
    have hres : limit_resolution content img 2000 =
        { h := (pyTrunc ((img.h : ℚ) *
            (((2000 : Nat) : ℚ) / ((max img.h img.w : Nat) : ℚ)))).toNat,
          w := (pyTrunc ((img.w : ℚ) *
            (((2000 : Nat) : ℚ) / ((max img.h img.w : Nat) : ℚ)))).toNat,
          data := content img
            (pyTrunc ((img.w : ℚ) *
              (((2000 : Nat) : ℚ) / ((max img.h img.w : Nat) : ℚ)))).toNat
            (pyTrunc ((img.h : ℚ) *
              (((2000 : Nat) : ℚ) / ((max img.h img.w : Nat) : ℚ)))).toNat } := by
      unfold limit_resolution
      rw [if_neg hc]
    obtain ⟨hh1, hh2⟩ := hdim img.h (Nat.le_max_left _ _)
    obtain ⟨hw1, hw2⟩ := hdim img.w (Nat.le_max_right _ _)
    refine ⟨fun hle => absurd hle hc, fun _ => ?_, ?_⟩
    · rw [hres]
      exact ⟨hh1, hw1, hh2, hw2⟩
    · rw [hres]
      exact max_le hh1 hw1

/-- Witness for C10: a 2×3 raster passes through unchanged; a 4000×1000
raster is reduced with both dimensions within the cap. -/
theorem limit_resolution_cap_witness :
    limit_resolution contentNil imgSmall 2000 = imgSmall ∧
      (limit_resolution contentNil imgBig 2000).h ≤ 2000 ∧
      max (limit_resolution contentNil imgBig 2000).h
        (limit_resolution contentNil imgBig 2000).w ≤ 2000 :=
  ⟨(limit_resolution_cap contentNil imgSmall).1 (by decide),
   ((limit_resolution_cap contentNil imgBig).2.1 (by decide)).1,
   (limit_resolution_cap contentNil imgBig).2.2⟩

/-- C7: every colour of the constrained-mode palette is verbatim an RGB
triple of the fixed reference table, paired with that entry's name, and the
refit stage of the orchestrator runs exactly when quantization was free
(`useYarnPalette = false`), leaving constrained palettes untouched. -/
theorem constrained_palette_verbatim (counts : List Nat) (n k : Nat)
    (hk : k < (yarnSelectedRgb counts n).length)
    (hlen : counts.length = YARN_PALETTE.length) :
    (∃ j, j < YARN_PALETTE.length ∧
      (yarnSelectedRgb counts n).getD k (0, 0, 0) =
        YARN_PALETTE_RGB.getD j (0, 0, 0) ∧
      (yarnSelectedNames counts n).getD k "" =
        YARN_PALETTE_NAMES.getD j "") ∧
    (∀ (orig : List (Nat × Nat × Nat)) (d : List Nat)
        (p : List (Nat × Nat × Nat)),
      paletteAfterRefit true orig d p = p ∧
      paletteAfterRefit false orig d p = refit_palette orig d p.length) := by
  constructor
  · have hk2 : k < (selectTopYarn counts n).length := by
      have : (yarnSelectedRgb counts n).length =
          (selectTopYarn counts n).length := List.length_map _ _
      omega
    have hmem : (selectTopYarn counts n).getD k 0 ∈ selectTopYarn counts n := by
      rw [List.getD_eq_getElem?_getD, List.getElem?_eq_getElem hk2]
      exact List.getElem_mem hk2
    refine ⟨(selectTopYarn counts n).getD k 0, ?_, ?_, ?_⟩
    · rw [← hlen]
      exact selectTopYarn_mem_lt counts n _ hmem
    · have hgd : (selectTopYarn counts n).getD k 0 =
          (selectTopYarn counts n)[k] := by
        rw [List.getD_eq_getElem?_getD, List.getElem?_eq_getElem hk2]
        rfl
      unfold yarnSelectedRgb
      rw [List.getD_eq_getElem?_getD, List.getElem?_map,
        List.getElem?_eq_getElem hk2, hgd]
      rfl
    · have hgd : (selectTopYarn counts n).getD k 0 =
          (selectTopYarn counts n)[k] := by
        rw [List.getD_eq_getElem?_getD, List.getElem?_eq_getElem hk2]
        rfl
      unfold yarnSelectedNames
      rw [List.getD_eq_getElem?_getD, List.getElem?_map,
        List.getElem?_eq_getElem hk2, hgd]
      rfl
  · intro orig d p
    exact ⟨rfl, rfl⟩

/-- Witness for C7: the selection over the concrete tied count vector, with
entry 0 of the palette verbatim from the table, and both orchestrator
branches at concrete arguments. -/
theorem constrained_palette_verbatim_witness :
    ((∃ j, j < YARN_PALETTE.length ∧
      (yarnSelectedRgb countsTie 3).getD 0 (0, 0, 0) =
        YARN_PALETTE_RGB.getD j (0, 0, 0) ∧
      (yarnSelectedNames countsTie 3).getD 0 "" =
        YARN_PALETTE_NAMES.getD j "") ∧
    (∀ (orig : List (Nat × Nat × Nat)) (d : List Nat)
        (p : List (Nat × Nat × Nat)),
      paletteAfterRefit true orig d p = p ∧
      paletteAfterRefit false orig d p = refit_palette orig d p.length)) :=
  constrained_palette_verbatim countsTie 3 0
    (by with_unfolding_all decide) (by with_unfolding_all decide)

/-- C1 (corrected, amended part): in free-mode palette refit, a label with
at least one pixel gets the per-channel mean of the original pixel colours,
clamped to `[0, 255]` and TRUNCATED (floored) to an integer
(`astype(np.uint8)`); a label with no pixels gets `(0, 0, 0)` — the zero
initialisation of the new palette — since the function receives no prior
palette to preserve. -/
theorem refit_palette_entries (orig : List (Nat × Nat × Nat)) (d : List Nat)
    (n c : Nat) (hc : c < n) :
    (((orig.zip d).filter fun p => p.2 == c).map (·.1) = [] →
      (refit_palette orig d n).getD c (0, 0, 0) = (0, 0, 0)) ∧
    (∀ px, px = ((orig.zip d).filter fun p => p.2 == c).map (·.1) →
      px ≠ [] →
      (refit_palette orig d n).getD c (0, 0, 0) =
        ((⌊min (255 : ℚ) (max 0
            ((((px.map (·.1)).sum : ℕ) : ℚ) / (px.length : ℚ)))⌋).toNat,
         (⌊min (255 : ℚ) (max 0
            ((((px.map (·.2.1)).sum : ℕ) : ℚ) / (px.length : ℚ)))⌋).toNat,
         (⌊min (255 : ℚ) (max 0
            ((((px.map (·.2.2)).sum : ℕ) : ℚ) / (px.length : ℚ)))⌋).toNat)) := by
  have hget : (refit_palette orig d n).getD c (0, 0, 0) =
      (fun c =>
        let px := ((orig.zip d).filter fun p => p.2 == c).map (·.1)
        if px.isEmpty then ((0 : Nat), (0 : Nat), (0 : Nat))
        else
          let m := px.length
          let ch := fun (s : Nat) =>
            (pyTrunc (min (255 : ℚ) (max 0 ((s : ℚ) / (m : ℚ))))).toNat
          (ch (px.map (·.1)).sum, ch (px.map (·.2.1)).sum,
            ch (px.map (·.2.2)).sum)) c := by
    unfold refit_palette
    exact getD_map_range _ n c (0, 0, 0) hc
  have hclip : ∀ x : ℚ, (0 : ℚ) ≤ min 255 (max 0 x) := fun x =>
    le_min (by norm_num) (le_max_left 0 x)
  constructor
  · intro hempty
    rw [hget]
    simp only [hempty]
    rfl
  · intro px hpx hne
    rw [hget]
    simp only [← hpx]
    have hie : px.isEmpty = false := by
      rw [List.isEmpty_eq_false]
      exact hne
    simp only [hie, Bool.false_eq_true, if_false]
    rw [pyTrunc_of_nonneg _ (hclip _), pyTrunc_of_nonneg _ (hclip _),
      pyTrunc_of_nonneg _ (hclip _)]

/-- Witness for C1 at concrete inputs: label 0 of `origCx` has mean 127.5 on
the red channel and refits to 127 (floored); label 1 is empty and refits to
the zero initialisation. -/
theorem refit_palette_entries_witness :
    (refit_palette origCx dCx 2).getD 0 (0, 0, 0) =
      ((⌊min (255 : ℚ) (max 0 (((255 : Nat) : ℚ) / ((2 : Nat) : ℚ)))⌋).toNat,
       (⌊min (255 : ℚ) (max 0 (((0 : Nat) : ℚ) / ((2 : Nat) : ℚ)))⌋).toNat,
       (⌊min (255 : ℚ) (max 0 (((0 : Nat) : ℚ) / ((2 : Nat) : ℚ)))⌋).toNat) ∧
    (refit_palette origCx dCx 2).getD 1 (0, 0, 0) = (0, 0, 0) := by
  constructor
  · have h := (refit_palette_entries origCx dCx 2 0 (by decide)).2
      (((origCx.zip dCx).filter fun p => p.2 == 0).map (·.1)) rfl
      (by with_unfolding_all decide)
    rw [h]
    with_unfolding_all decide
  · exact (refit_palette_entries origCx dCx 2 1 (by decide)).1
      (by with_unfolding_all decide)

/-- C1 counterexample: at `origCx`/`dCx` with prior palette `priorCx`, the
claim's rounding of the label-0 mean 127.5 gives 128 but the code stores
127, and the empty label 1 gets `(0,0,0)` rather than its prior colour
`(9,9,9)`; in particular the prior-colour clause of the claim is false. -/
theorem refit_palette_counterexample :
    (refit_palette origCx dCx 2).getD 0 (0, 0, 0) = (127, 0, 0) ∧
      ((((origCx.zip dCx).filter fun p => p.2 == 0).map (·.1)).map
        (·.1)).sum = 255 ∧
      (((origCx.zip dCx).filter fun p => p.2 == 0).map (·.1)).length = 2 ∧
      (round (min (255 : ℚ) (max 0 ((255 : ℚ) / 2)))).toNat = 128 ∧
      ((origCx.zip dCx).filter fun p => p.2 == 1) = [] ∧
      priorCx.getD 1 (0, 0, 0) = (9, 9, 9) ∧
      ¬ (∀ c, c < 2 →
        ((origCx.zip dCx).filter fun p => p.2 == c) = [] →
        (refit_palette origCx dCx 2).getD c (0, 0, 0) =
          priorCx.getD c (0, 0, 0)) := by
  refine ⟨?_, ?_, ?_, ?_, ?_, ?_, ?_⟩ <;> with_unfolding_all decide

/-- C2 (corrected, amended part): the pipeline is deterministic except for
the per-entry ids.  Every stage of the embedding is a pure function of its
input (the clustering seed is fixed), so two runs on identical input agree
on the final label map and on every field of the palette record, the
layers, and the yarn estimates other than the `uuid4`-drawn ids: for any two
id streams, stripping the ids makes `build_output` byte-identical. -/
theorem build_output_deterministic_mod_ids (idGen1 idGen2 : Nat → String)
    (enc : List Bool → String) (p : List (Nat × Nat × Nat)) (d : List Nat)
    (h w : Nat) (width height : ℚ) (unit : String) (names : List String) :
    ((build_output idGen1 enc p d h w width height unit names).1.map stripTC =
      (build_output idGen2 enc p d h w width height unit names).1.map stripTC) ∧
    ((build_output idGen1 enc p d h w width height unit names).2.1.map
        Layer.bitmap =
      (build_output idGen2 enc p d h w width height unit names).2.1.map
        Layer.bitmap) ∧
    ((build_output idGen1 enc p d h w width height unit names).2.2.map
        stripYE =
      (build_output idGen2 enc p d h w width height unit names).2.2.map
        stripYE) := by
  refine ⟨?_, ?_, ?_⟩ <;>
    · simp only [build_output, List.map_map]
      rfl

/-- C2 counterexample: two runs of the pipeline differing only in the fresh
random uuid draws produce different palette records (the `id` fields
differ), so the output is not byte-identical as the claim states. -/
theorem build_output_random_ids_counterexample :
    (build_output idGenA encZero [(0, 0, 0)] [0] 1 1 1 1 "in" []).1 ≠
      (build_output idGenB encZero [(0, 0, 0)] [0] 1 1 1 1 "in" []).1 := by
  with_unfolding_all decide

/-- C8: for every palette entry, output assembly computes the rug area with
`cm` converted to inches by dividing by 2.54, coverage as the entry's pixel
count over the total pixel count, area as coverage times rug area, yardage
as area times the fixed density 1.7, and reports them rounded to 2, 1 and 1
decimals respectively; the reported pixel count is the entry's count in the
final label map. -/
theorem yarn_estimate_formulas (idGen : Nat → String)
    (enc : List Bool → String) (p : List (Nat × Nat × Nat)) (d : List Nat)
    (h w : Nat) (width height : ℚ) (unit : String) (names : List String)
    (i : Nat) (hi : i < p.length) (htot : 0 < h * w) :
    ((build_output idGen enc p d h w width height unit names).2.2.getD i
        ⟨"", 0, 0, 0⟩).area =
      pyRound 2 (specCoverage d i (h * w) * specRugArea width height unit) ∧
    ((build_output idGen enc p d h w width height unit names).2.2.getD i
        ⟨"", 0, 0, 0⟩).estimatedYards =
      pyRound 1 (specCoverage d i (h * w) * specRugArea width height unit *
        TUFT_DENSITY) ∧
    ((build_output idGen enc p d h w width height unit names).2.2.getD i
        ⟨"", 0, 0, 0⟩).percentCoverage =
      pyRound 1 (specCoverage d i (h * w) * 100) ∧
    ((build_output idGen enc p d h w width height unit names).1.getD i
        ⟨"", (0, 0, 0), "", 0, ""⟩).pixelCount = d.count i := by
  have h54 : (2.54 : ℚ) = 127 / 50 := by norm_num
  have hrug : specRugArea width height unit =
      (if unit = "cm" then (width / (127 / 50)) * (height / (127 / 50))
        else width * height) := by
    unfold specRugArea
    rw [h54]
  have hcov : ∀ q : ℚ,
      (if 0 < h * w then ((d.count i : ℚ) / ((h * w : Nat) : ℚ)) else q) =
        specCoverage d i (h * w) := by
    intro q
    rw [if_pos htot]
    rfl
  have hYE : (build_output idGen enc p d h w width height unit names).2.2 =
      (List.range p.length).map fun j =>
        ({ colorId := idGen j,
           area := pyRound 2
             ((if 0 < h * w then ((d.count j : ℚ) / ((h * w : Nat) : ℚ)) else 0) *
               (if unit = "cm" then (width / (127 / 50)) * (height / (127 / 50))
                 else width * height)),
           estimatedYards := pyRound 1
             ((if 0 < h * w then ((d.count j : ℚ) / ((h * w : Nat) : ℚ)) else 0) *
               (if unit = "cm" then (width / (127 / 50)) * (height / (127 / 50))
                 else width * height) * TUFT_DENSITY),
           percentCoverage := pyRound 1
             ((if 0 < h * w then ((d.count j : ℚ) / ((h * w : Nat) : ℚ)) else 0) *
               100) } : YarnEstimate) := by
    simp only [build_output, List.map_map]
    rfl
  have hTC : (build_output idGen enc p d h w width height unit names).1 =
      (List.range p.length).map fun j =>
        ({ id := idGen j, rgb := p.getD j (0, 0, 0),
           hex := "#" ++ hex2 (p.getD j (0, 0, 0)).1 ++
             hex2 (p.getD j (0, 0, 0)).2.1 ++ hex2 (p.getD j (0, 0, 0)).2.2,
           pixelCount := d.count j,
           name := if j < names.length then names.getD j "" else "" } :
           TuftColor) := by
    simp only [build_output, List.map_map]
    rfl
  rw [hYE, hTC, getD_map_range _ p.length i _ hi, getD_map_range _ p.length i _ hi]
  rw [hrug]
  rw [hcov 0]
  exact ⟨rfl, rfl, rfl, rfl⟩

/-- Witness for C8 at a concrete request: one palette entry over a 1×1 map
with a 1 in × 1 in rug. -/
theorem yarn_estimate_formulas_witness :
    ((build_output idGenA encZero [(0, 0, 0)] [0] 1 1 1 1 "in" []).2.2.getD 0
        ⟨"", 0, 0, 0⟩).area =
      pyRound 2 (specCoverage [0] 0 1 * specRugArea 1 1 "in") ∧
    ((build_output idGenA encZero [(0, 0, 0)] [0] 1 1 1 1 "in" []).1.getD 0
        ⟨"", (0, 0, 0), "", 0, ""⟩).pixelCount = List.count 0 [0] := by
  have h := yarn_estimate_formulas idGenA encZero [(0, 0, 0)] [0] 1 1 1 1
    "in" [] 0 (by decide) (by decide)
  exact ⟨h.1, h.2.2.2⟩

theorem assign_preserves (n : Nat) (ids : List Nat) (v : Nat) (d : List Nat)
    (hn : 0 < n) (hv : v < n) (hwf : wfLabels n d) :
    wfLabels n (assign ids v d) := by
  intro x hx
  rcases assign_mem ids v d x hx with rfl | hx | rfl
  · exact hv
  · exact hwf x hx
  · exact hn

theorem ringNb_dom_lt (n h w : Nat) (res sel : List Nat) (c : Nat)
    (hn : 0 < n) (hwf : wfLabels n res)
    (hne : ringNb h w res sel c ≠ []) :
    bincountArgmax (ringNb h w res sel c) < n := by
  have hmem := bincountArgmax_mem _ hne
  rcases ringNb_sub h w res sel c _ hmem with hin | h0
  · exact hwf _ hin
  · rw [h0]
    exact hn

theorem cleanup_inv (h w n : Nat) (d : List Nat) (thr : ℚ)
    (hn : 0 < n) (hwf : wfLabels n d) :
    wfLabels n (cleanup_small_regions h w d thr) ∧
      (cleanup_small_regions h w d thr).length = d.length := by
  simp only [cleanup_small_regions, cleanupWith]
  refine foldl_inv_mem
    (fun res => wfLabels n res ∧ res.length = d.length) _ _ d ⟨hwf, rfl⟩ ?_
  intro res colorId _ hres
  refine foldl_inv_mem
    (fun r => wfLabels n r ∧ r.length = d.length) _ _ res hres ?_
  intro r comp _ hr
  by_cases hA : comp.length < max (pyTrunc (((h * w : Nat) : ℚ) * thr)).toNat 8
  · rw [if_pos hA]
    by_cases hE : (ringNb h w r comp colorId).isEmpty
    · rw [if_pos hE]
      exact hr
    · rw [if_neg hE]
      have hne : ringNb h w r comp colorId ≠ [] :=
        fun he => hE (List.isEmpty_iff.mpr he)
      refine ⟨assign_preserves n _ _ _ hn
        (ringNb_dom_lt n h w r comp colorId hn hr.1 hne) hr.1, ?_⟩
      rw [assign_length]
      exact hr.2
  · rw [if_neg hA]
    exact hr

theorem thickness_inv (h w n : Nat) (d : List Nat)
    (minT rugW rugH : ℚ) (unit : String)
    (hn : 0 < n) (hwf : wfLabels n d) :
    wfLabels n (enforce_min_thickness h w d n minT rugW rugH unit) ∧
      (enforce_min_thickness h w d n minT rugW rugH unit).length =
        d.length := by
  simp only [enforce_min_thickness]
  by_cases hrad : minRadiusPx w minT rugW unit < 2
  · rw [if_pos hrad]
    exact ⟨hwf, rfl⟩
  · rw [if_neg hrad]
    refine foldl_inv_mem
      (fun res => wfLabels n res ∧ res.length = d.length) _ _ d ⟨hwf, rfl⟩ ?_
    intro res c _ hres
    by_cases hm : !((res.map fun x => x == c).any id)
    · rw [if_pos hm]
      exact hres
    · rw [if_neg hm]
      by_cases hl : !(((List.range (h * w)).map fun i =>
          bget (res.map fun x => x == c) i &&
            !(bget (dilateK (discOffsets (minRadiusPx w minT rugW unit)) h w
              (erodeK (discOffsets (minRadiusPx w minT rugW unit)) h w
                (res.map fun x => x == c))) i)).any id)
      · rw [if_pos hl]
        exact hres
      · rw [if_neg hl]
        by_cases hE : (ringNb h w res
            ((List.range (h * w)).filter fun i =>
              bget ((List.range (h * w)).map fun i =>
                bget (res.map fun x => x == c) i &&
                  !(bget (dilateK (discOffsets (minRadiusPx w minT rugW unit))
                    h w (erodeK (discOffsets (minRadiusPx w minT rugW unit))
                      h w (res.map fun x => x == c))) i)) i) c).isEmpty
        · rw [if_pos hE]
          exact hres
        · rw [if_neg hE]
          have hne := fun he => hE (List.isEmpty_iff.mpr he)
          refine ⟨assign_preserves n _ _ _ hn
            (ringNb_dom_lt n h w res _ c hn hres.1 hne) hres.1, ?_⟩
          rw [assign_length]
          exact hres.2

theorem smooth_inv (canvasOf : Nat → Nat → List Bool → List Bool)
    (h w n : Nat) (d : List Nat) (hn : 0 < n) :
    wfLabels n (smooth_edges_contour canvasOf h w d n) ∧
      (smooth_edges_contour canvasOf h w d n).length = h * w := by
  simp only [smooth_edges_contour]
  have hpairs : ∀ p ∈ (List.range n).map fun c => (c, d.count c), p.1 < n := by
    intro p hp
    rcases List.mem_map.1 hp with ⟨c, hc, rfl⟩
    exact List.mem_range.1 hc
  have hpne : ((List.range n).map fun c => (c, d.count c)) ≠ [] := by
    intro he
    have := List.map_eq_nil_iff.1 he
    rw [List.range_eq_nil] at this
    omega
  have hbg : ((sortByB (fun a b => decide (b.2 ≤ a.2))
      ((List.range n).map fun c => (c, d.count c))).headD (0, 0)).1 < n :=
    hpairs _ (sortByB_headD_mem _ _ _ hpne)
  refine foldl_inv_mem
    (fun out => wfLabels n out ∧ out.length = h * w) _ _ _ ⟨?_, ?_⟩ ?_
  · intro x hx
    rw [List.eq_of_mem_replicate hx]
    exact hbg
  · exact List.length_replicate _ _
  · intro out p hp hout
    by_cases hz : p.2 == 0
    · rw [if_pos hz]
      exact hout
    · rw [if_neg hz]
      constructor
      · intro x hx
        rcases List.mem_map.1 hx with ⟨i, hi, hieq⟩
        by_cases hcv : bget (canvasOf h w (d.map fun x => x == p.1)) i
        · rw [if_pos hcv] at hieq
          rw [← hieq]
          exact hpairs p ((sortByB_perm _ _).mem_iff.1 hp)
        · rw [if_neg hcv] at hieq
          rw [← hieq]
          show mget out i < n
          rcases mget_mem_or_zero out i with hm | h0
          · exact hout.1 _ hm
          · rw [h0]
            exact hn
      · simp

theorem assignNearest_inv (dist : Nat → Nat → ℚ) (npx m n : Nat)
    (hm : 0 < m) (hmn : m ≤ n) :
    wfLabels n (assignNearest dist npx m) ∧
      (assignNearest dist npx m).length = npx := by
  constructor
  · intro x hx
    rcases List.mem_map.1 hx with ⟨i, _, rfl⟩
    exact Nat.lt_of_lt_of_le (argminQ_lt m (dist i) hm) hmn
  · simp [assignNearest]

/-- C4: after each embedded pipeline stage — nearest-entry quantization (the
per-pixel assignment shared by free-mode `kmeans.predict` and the yarn
remap), every cleanup pass, thickness enforcement, and contour smoothing —
every label-map value lies in `[0, n_colors)`, the map has exactly one label
per raster pixel (`h * w` entries), and consequently the per-label pixel
counts sum to the total pixel count (the labels partition the pixels). -/
theorem stage_invariants (h w n : Nat) (d : List Nat)
    (thr minT rugW rugH : ℚ) (unit : String)
    (canvasOf : Nat → Nat → List Bool → List Bool)
    (dist : Nat → Nat → ℚ) (m : Nat)
    (hn : 0 < n) (hlen : d.length = h * w) (hwf : wfLabels n d) :
    (wfLabels n (cleanup_small_regions h w d thr) ∧
      (cleanup_small_regions h w d thr).length = h * w ∧
      ∑ c ∈ Finset.range n, (cleanup_small_regions h w d thr).count c =
        h * w) ∧
    (wfLabels n (enforce_min_thickness h w d n minT rugW rugH unit) ∧
      (enforce_min_thickness h w d n minT rugW rugH unit).length = h * w ∧
      ∑ c ∈ Finset.range n,
        (enforce_min_thickness h w d n minT rugW rugH unit).count c =
          h * w) ∧
    (wfLabels n (smooth_edges_contour canvasOf h w d n) ∧
      (smooth_edges_contour canvasOf h w d n).length = h * w ∧
      ∑ c ∈ Finset.range n, (smooth_edges_contour canvasOf h w d n).count c =
        h * w) ∧
    (0 < m → m ≤ n →
      wfLabels n (assignNearest dist (h * w) m) ∧
        (assignNearest dist (h * w) m).length = h * w ∧
        ∑ c ∈ Finset.range n, (assignNearest dist (h * w) m).count c =
          h * w) := by
  obtain ⟨hcw, hcl⟩ := cleanup_inv h w n d thr hn hwf
  obtain ⟨htw, htl⟩ := thickness_inv h w n d minT rugW rugH unit hn hwf
  obtain ⟨hsw, hsl⟩ := smooth_inv canvasOf h w n d hn
  refine ⟨⟨hcw, ?_, ?_⟩, ⟨htw, ?_, ?_⟩, ⟨hsw, hsl, ?_⟩, ?_⟩
  · rw [hcl, hlen]
  · rw [count_sum_length n _ hcw, hcl, hlen]
  · rw [htl, hlen]
  · rw [count_sum_length n _ htw, htl, hlen]
  · rw [count_sum_length n _ hsw, hsl]
  · intro hm hmn
    obtain ⟨hqw, hql⟩ := assignNearest_inv dist (h * w) m n hm hmn
    exact ⟨hqw, hql, by rw [count_sum_length n _ hqw, hql]⟩

/-- Witness for C4 at a concrete 1×2 map with two labels: the partition
sums equal the pixel count after each stage. -/
theorem stage_invariants_witness :
    (∑ c ∈ Finset.range 2,
      (cleanup_small_regions 1 2 [0, 1] 0).count c = 1 * 2) ∧
    (∑ c ∈ Finset.range 2,
      (enforce_min_thickness 1 2 [0, 1] 2 0 1 1 "in").count c = 1 * 2) ∧
    (∑ c ∈ Finset.range 2,
      (smooth_edges_contour canvasId 1 2 [0, 1] 2).count c = 1 * 2) ∧
    wfLabels 2 (assignNearest distZero (1 * 2) 1) := by
  have h := stage_invariants 1 2 2 [0, 1] 0 0 1 1 "in" canvasId distZero 1
    (by decide) (by decide) (by unfold wfLabels; decide)
  exact ⟨h.1.2.2, h.2.1.2.2, h.2.2.1.2.2, (h.2.2.2 (by decide) (by decide)).1⟩

/-- C9: the outline generator returns the empty string exactly when no label
yields a simplified polygon with at least 3 vertices (given that
Douglas-Peucker simplification never adds vertices); otherwise it returns
the SVG document whose `viewBox` and `width`/`height` attributes are the
label map's pixel width and height, containing, for each qualifying
polygon, a closed path that moves to the first vertex, draws a line to each
subsequent vertex and closes (`pathData`), all joined into one path element
(`svgDoc`). -/
theorem outline_svg_characterisation
    (contoursOf : List Bool → List (List (Nat × Nat)))
    (simplify : Nat → Nat → List (Nat × Nat) → List (Nat × Nat))
    (h w : Nat) (d : List Nat) (n : Nat)
    (hs : ∀ cnt, (simplify h w cnt).length ≤ cnt.length) :
    (generate_outline_svg contoursOf simplify h w d n = "" ↔
      ¬ ∃ c, c < n ∧ ((d.map fun x => x == c).any id) = true ∧
        ∃ cnt ∈ contoursOf (d.map fun x => x == c),
          3 ≤ (simplify h w cnt).length) ∧
    (generate_outline_svg contoursOf simplify h w d n ≠ "" →
      generate_outline_svg contoursOf simplify h w d n =
        svgDoc w h (String.intercalate " "
          (outlinePaths contoursOf simplify h w d n))) := by
  have hpaths : outlinePaths contoursOf simplify h w d n = [] ↔
      ¬ ∃ c, c < n ∧ ((d.map fun x => x == c).any id) = true ∧
        ∃ cnt ∈ contoursOf (d.map fun x => x == c),
          3 ≤ (simplify h w cnt).length := by
    unfold outlinePaths
    rw [List.flatMap_eq_nil_iff]
    constructor
    · rintro hall ⟨c, hc, hany, cnt, hcnt, hsim⟩
      have hthis := hall c (List.mem_range.2 hc)
      simp only [hany, Bool.not_true, Bool.false_eq_true, if_false] at hthis
      by_cases hce : (contoursOf (d.map fun x => x == c)).isEmpty
      · rw [List.isEmpty_iff] at hce
        rw [hce] at hcnt
        cases hcnt
      · simp only [hce, Bool.false_eq_true, if_false] at hthis
        rw [List.filterMap_eq_nil_iff] at hthis
        have h2 := hthis cnt hcnt
        by_cases h3 : cnt.length < 3
        · have := hs cnt
          omega
        · rw [if_neg h3] at h2
          by_cases h4 : (simplify h w cnt).length < 3
          · omega
          · rw [if_neg h4] at h2
            cases h2
    · intro hnex c hcr
      by_cases hany : ((d.map fun x => x == c).any id) = true
      · simp only [hany, Bool.not_true, Bool.false_eq_true, if_false]
        by_cases hce : (contoursOf (d.map fun x => x == c)).isEmpty
        · rw [if_pos hce]
        · simp only [hce, Bool.false_eq_true, if_false]
          rw [List.filterMap_eq_nil_iff]
          intro cnt hcnt
          by_cases h3 : cnt.length < 3
          · rw [if_pos h3]
          · rw [if_neg h3]
            by_cases h4 : (simplify h w cnt).length < 3
            · rw [if_pos h4]
            · exfalso
              exact hnex ⟨c, List.mem_range.1 hcr, hany, cnt, hcnt, by omega⟩
      · have hany2 : ((d.map fun x => x == c).any id) = false :=
          Bool.eq_false_iff.2 hany
        simp only [hany2, Bool.not_false, if_true]
  constructor
  · constructor
    · intro hsvg
      rw [← hpaths]
      by_contra hne
      have hie : (outlinePaths contoursOf simplify h w d n).isEmpty = false := by
        rw [List.isEmpty_eq_false]
        exact hne
      unfold generate_outline_svg at hsvg
      simp only [hie, Bool.false_eq_true, if_false] at hsvg
      exact svgDoc_ne_empty w h _ hsvg
    · intro hnex
      unfold generate_outline_svg
      rw [hpaths.mpr hnex]
      rfl
  · intro hne
    unfold generate_outline_svg at hne ⊢
    by_cases hie : (outlinePaths contoursOf simplify h w d n).isEmpty
    · rw [if_pos hie] at hne
      exact absurd rfl hne
    · rw [if_neg hie]

/-- Witness for C9: a concrete triangle contour on a nonempty 1×1 map gives
a nonempty document equal to the template. -/
theorem outline_svg_witness :
    generate_outline_svg contoursTriangle simplifyId 1 1 [0] 1 ≠ "" ∧
      generate_outline_svg contoursTriangle simplifyId 1 1 [0] 1 =
        svgDoc 1 1 (String.intercalate " "
          (outlinePaths contoursTriangle simplifyId 1 1 [0] 1)) := by
  have hch := outline_svg_characterisation contoursTriangle simplifyId 1 1
    [0] 1 (fun cnt => le_refl _)
  have hex : ∃ c, c < 1 ∧ (([0].map fun x => x == c).any id) = true ∧
      ∃ cnt ∈ contoursTriangle ([0].map fun x => x == c),
        3 ≤ (simplifyId 1 1 cnt).length := by
    refine ⟨0, by decide, by decide, [(0, 0), (3, 0), (0, 3)], ?_, by decide⟩
    show [(0, 0), (3, 0), (0, 3)] ∈ [[(0, 0), (3, 0), (0, 3)]]
    exact List.mem_cons_self _ _
  have hne : generate_outline_svg contoursTriangle simplifyId 1 1 [0] 1 ≠ "" :=
    fun he => (hch.1.mp he) hex
  exact ⟨hne, hch.2 hne⟩

end Tuft
